import Mathlib

/-
Verification of `generate_rss.py` (repository `ju`): a single-shot batch
converter that fetches a news JSON list through a FlareSolverr
browser-automation proxy and republishes it as RSS 2.0 XML.

The Python source is shallowly embedded below.  Strings are modelled as
`List Char` (`Str`), JSON values as the inductive `Json`, Python `dict`s
decoded from JSON as association lists with unique keys, and every fallible
Python code path as an `Except`/`Option` result.  `json.loads` is modelled by
an executable recursive-descent parser (`jsonParse`); the model covers the
JSON fragment actually exercised by the program (integers rather than
arbitrary floats, and the standard single-character escapes).
-/

set_option maxRecDepth 100000

abbrev Str := List Char

def S (s : String) : Str := s.data

/-- Whitespace characters recognised by Python `str.strip` (ASCII range):
space and the control characters 9-13 (tab, LF, VT, FF, CR). -/
def pyWs (c : Char) : Bool :=
  c.toNat = 32 || (9 ≤ c.toNat && c.toNat ≤ 13)

/-- Drop trailing whitespace. -/
def rstrip (s : Str) : Str := (s.reverse.dropWhile pyWs).reverse

/-- Python `str.strip()`: drop leading and trailing whitespace. -/
def pstrip (s : Str) : Str := rstrip (s.dropWhile pyWs)

/-- Whitespace characters of the JSON grammar (as in `json.loads`):
space (32), tab (9), LF (10), CR (13). -/
def jsonWs (c : Char) : Bool :=
  c.toNat = 32 || c.toNat = 9 || c.toNat = 10 || c.toNat = 13

/-- First occurrence split: `firstSplit d s = some (a, b)` when `s = a ++ d ++ b`
and this is the leftmost occurrence of `d` in `s`. -/
def firstSplit (d : Str) : Str → Option (Str × Str)
  | [] => none
  | c :: rest =>
    if d.isPrefixOf (c :: rest) then some ([], (c :: rest).drop d.length)
    else (firstSplit d rest).map (fun p => (c :: p.1, p.2))

/-- Split at the first occurrence of a single character, consuming it. -/
def splitChar (ch : Char) (s : Str) : Option (Str × Str) :=
  match s.dropWhile (fun c => c ≠ ch) with
  | [] => none
  | _ :: r => some (s.takeWhile (fun c => c ≠ ch), r)

/-- Substring test: does `d` occur contiguously inside `s`? -/
def hasSub (d : Str) : Str → Bool
  | [] => d.isEmpty
  | c :: rest => d.isPrefixOf (c :: rest) || hasSub d rest

/-- Number of (possibly overlapping) occurrences of `d` in `s`. -/
def countSub (d : Str) : Str → Nat
  | [] => if d.isEmpty then 1 else 0
  | c :: rest => (if d.isPrefixOf (c :: rest) then 1 else 0) + countSub d rest

/-- Consume an expected literal prefix, returning the remainder. -/
def expectLit (lit s : Str) : Option Str :=
  if lit.isPrefixOf s then some (s.drop lit.length) else none

/-! ## The JSON data model (values produced by `json.loads`). -/

/-- A decoded JSON value.  Numbers are modelled as integers: the upstream feed
and every envelope field the program reads uses only integral numbers. -/
inductive Json where
  | null
  | bool (b : Bool)
  | num (n : Int)
  | str (s : Str)
  | arr (xs : List Json)
  | obj (kvs : List (Str × Json))

/-- Python `dict.get(k)` on a JSON-decoded object (association list). -/
def pyGet (kvs : List (Str × Json)) (k : Str) : Option Json :=
  (kvs.find? (fun p => p.1 == k)).map (fun p => p.2)

/-- Python truthiness of a JSON-decoded value (`bool(x)`). -/
def pyTruthy : Json → Bool
  | .null => false
  | .bool b => b
  | .num n => n != 0
  | .str s => !s.isEmpty
  | .arr xs => !xs.isEmpty
  | .obj kvs => !kvs.isEmpty

def Json.isObj : Json → Bool
  | .obj _ => true
  | _ => false

/-- A single-quote character, used by Python `repr` of strings. -/
def sqc : Char := Char.ofNat 39

mutual
/-- Python `repr` of a JSON-decoded value (as used by `str` on containers).
String escaping inside `repr` is not modelled; no claim depends on it. -/
def pyRepr : Json → Str
  | .null => S "None"
  | .bool true => S "True"
  | .bool false => S "False"
  | .num n => S (toString n)
  | .str s => sqc :: s ++ [sqc]
  | .arr xs => '[' :: pyReprList xs ++ [']']
  | .obj kvs => '\x7b' :: pyReprObj kvs ++ ['\x7d']

def pyReprList : List Json → Str
  | [] => []
  | [x] => pyRepr x
  | x :: y :: rest => pyRepr x ++ S ", " ++ pyReprList (y :: rest)

def pyReprObj : List (Str × Json) → Str
  | [] => []
  | [(k, v)] => sqc :: k ++ [sqc] ++ S ": " ++ pyRepr v
  | (k, v) :: m :: rest => sqc :: k ++ [sqc] ++ S ": " ++ pyRepr v ++ S ", " ++ pyReprObj (m :: rest)
end

/-- Python `str(x)` on a JSON-decoded value, as interpolated by an f-string. -/
def pyStr : Json → Str
  | .str s => s
  | v => pyRepr v

/-! ## `json.loads`, modelled as an executable recursive-descent parser. -/

/-- Value of a run of decimal digits. -/
def digitsVal (ds : Str) : Nat :=
  ds.foldl (fun a c => a * 10 + (c.toNat - 48)) 0

/-- Parse a JSON natural-number literal (rejecting leading zeros). -/
def parseNat (s : Str) : Option (Nat × Str) :=
  match s with
  | '0' :: rest =>
    match rest with
    | d :: _ => if d.isDigit then none else some (0, rest)
    | [] => some (0, [])
  | c :: _ =>
    if c.isDigit then
      some (digitsVal (s.takeWhile Char.isDigit), s.dropWhile Char.isDigit)
    else none
  | [] => none

/-- Parse a JSON number literal (integers; a fraction or exponent makes the
surrounding parse fail, matching the program's integral-only inputs). -/
def parseJNum (s : Str) : Option (Json × Str) :=
  match s with
  | '-' :: rest => (parseNat rest).map (fun p => (.num (-(p.1 : Int)), p.2))
  | _ => (parseNat s).map (fun p => (.num (p.1 : Int), p.2))

/-- Decode a single-character JSON string escape: the self-representing
trio quote/backslash/slash, then n, t, r, b, f. -/
def escChar (e : Char) : Option Char :=
  if e = '"' || e = '\\' || e = '/' then some e
  else if e = 'n' then some '\n'
  else if e = 't' then some '\t'
  else if e = 'r' then some '\r'
  else if e = 'b' then some '\x08'
  else if e = 'f' then some '\x0c'
  else none

/-- Parse the body of a JSON string after the opening quote. -/
def parseJStr : Str → Option (Str × Str)
  | [] => none
  | '"' :: rest => some ([], rest)
  | '\\' :: e :: rest =>
    match escChar e with
    | some ch => (parseJStr rest).map (fun p => (ch :: p.1, p.2))
    | none => none
  | c :: rest =>
    if c.toNat < 32 then none
    else (parseJStr rest).map (fun p => (c :: p.1, p.2))

/-- Insert a parsed object member the way Python dict assignment does:
an existing key keeps its original position but takes the later value. -/
def objCons (k : Str) (v : Json) (kvs : List (Str × Json)) : List (Str × Json) :=
  match pyGet kvs k with
  | some w => (k, w) :: kvs.eraseP (fun p => p.1 == k)
  | none => (k, v) :: kvs

mutual
/-- Parse one JSON value (fuel-total). -/
def parseVal : Nat → Str → Option (Json × Str)
  | 0, _ => none
  | fuel + 1, s0 =>
    let s := s0.dropWhile jsonWs
    if (S "null").isPrefixOf s then some (.null, s.drop 4)
    else if (S "true").isPrefixOf s then some (.bool true, s.drop 4)
    else if (S "false").isPrefixOf s then some (.bool false, s.drop 5)
    else
      match s with
      | '"' :: rest => (parseJStr rest).map (fun p => (.str p.1, p.2))
      | '[' :: rest =>
        (match rest.dropWhile jsonWs with
         | ']' :: r2 => some (.arr [], r2)
         | r1 => (parseElems fuel r1).map (fun p => (.arr p.1, p.2)))
      | '\x7b' :: rest =>
        (match rest.dropWhile jsonWs with
         | '\x7d' :: r2 => some (.obj [], r2)
         | r1 => (parseMembers fuel r1).map (fun p => (.obj p.1, p.2)))
      | _ => parseJNum s

/-- Parse the comma-separated elements of a non-empty JSON array. -/
def parseElems : Nat → Str → Option (List Json × Str)
  | 0, _ => none
  | fuel + 1, s =>
    match parseVal fuel s with
    | none => none
    | some (v, r) =>
      match r.dropWhile jsonWs with
      | ',' :: r2 => (parseElems fuel r2).map (fun p => (v :: p.1, p.2))
      | ']' :: r2 => some ([v], r2)
      | _ => none

/-- Parse the members of a non-empty JSON object. -/
def parseMembers : Nat → Str → Option (List (Str × Json) × Str)
  | 0, _ => none
  | fuel + 1, s =>
    match s.dropWhile jsonWs with
    | '"' :: rest =>
      (match parseJStr rest with
       | none => none
       | some (k, r) =>
         match r.dropWhile jsonWs with
         | ':' :: r2 =>
           (match parseVal fuel r2 with
            | none => none
            | some (v, r3) =>
              match r3.dropWhile jsonWs with
              | ',' :: r4 => (parseMembers fuel r4).map (fun p => (objCons k v p.1, p.2))
              | '\x7d' :: r4 => some ([(k, v)], r4)
              | _ => none)
         | _ => none)
    | _ => none
end

/-- `json.loads`: parse a complete JSON document (whitespace-tolerant). -/
def jsonParse (s : Str) : Option Json :=
  match parseVal (2 * s.length + 2) s with
  | some (v, rest) => if rest.dropWhile jsonWs = [] then some v else none
  | none => none

/-! ## Error taxonomy of the Fetcher (spec section 7).

`TransportError` (network failure before any envelope exists) is out of the
embedded fragment: claims quantify over envelopes already received. -/

/-- Reason attached to a `MalformedPayloadError` (the three distinct
`ValueError`s raised on lines 96, 99 and 101 of `generate_rss.py`). -/
inductive MPReason where
  | extractNotJson
  | htmlNoPre
  | notJson
deriving DecidableEq

/-- Fatal fetch errors (spec section 7).  `proxyError` carries the proxy's
own message object; `envelopeShape` is the `ValueError` of line 59. -/
inductive FetchError where
  | proxyError (msg : Json)
  | envelopeShape
  | malformedPayload (why : MPReason)

/-! ## Fetcher, stage 1: the proxy envelope (lines 35-59). -/

/-- Message extracted for a proxy failure: `data.get('message', 'Unknown error')`. -/
def msgOf (data : List (Str × Json)) : Json :=
  (pyGet data (S "message")).getD (.str (S "Unknown error"))

/-- Lines 38-41: reject an envelope whose status is not the sentinel "ok". -/
def checkStatus (data : List (Str × Json)) : Except FetchError Unit :=
  match pyGet data (S "status") with
  | some (.str s) => if s = S "ok" then .ok () else .error (.proxyError (msgOf data))
  | _ => .error (.proxyError (msgOf data))

/-- Lines 45-59: locate the response body inside the solution object.
The Python `if/elif` chain selects the FIRST PRESENT of "response", "body",
"html" (whatever its value); `body is None` then fails both when no field is
present and when the selected field holds JSON null. -/
def locateBody (sol : List (Str × Json)) : Except FetchError Json :=
  let body : Option Json :=
    if (pyGet sol (S "response")).isSome then pyGet sol (S "response")
    else if (pyGet sol (S "body")).isSome then pyGet sol (S "body")
    else if (pyGet sol (S "html")).isSome then pyGet sol (S "html")
    else none
  match body with
  | none => .error .envelopeShape
  | some .null => .error .envelopeShape
  | some v => .ok v

/-- Lines 35-59 combined: status check, then body location.  Line 45's
`data.get("solution", {})` yields an empty dict when the field is absent;
a non-object solution value is outside the modelled fragment (the claims
quantify over envelopes whose solution is an object). -/
def fetchEnvelope (data : List (Str × Json)) : Except FetchError Json :=
  match checkStatus data with
  | .error e => .error e
  | .ok () =>
    let sol := match pyGet data (S "solution") with
      | some (.obj kvs) => kvs
      | _ => []
    locateBody sol

/-! ## Fetcher, stage 2: parsing a string body (lines 61-101). -/

/-- Line 83: `re.search(r'<pre[^>]*>(.*?)</pre>', body, re.DOTALL)`, returning
group 1.  The scan tries each start position left to right; a match needs the
literal `<pre`, then non-`>` characters up to a `>`, then a lazy body up to the
first `</pre>`.  No `re.IGNORECASE` flag is passed, so matching is
case-sensitive. -/
def extractPre : Str → Option Str
  | [] => none
  | c :: rest =>
    if (S "<pre").isPrefixOf (c :: rest) then
      match splitChar '>' ((c :: rest).drop 4) with
      | some (_, afterGt) =>
        (match firstSplit (S "</pre>") afterGt with
         | some (inner, _) => some inner
         | none => extractPre rest)
      | none => extractPre rest
    else extractPre rest

/-- Lines 64-101: empty-body check, direct JSON parse, then the HTML-wrapped
fallback.  The extracted `<pre>` content is stripped (line 86) before the
re-parse. -/
def processBody (body : Str) : Except FetchError Json :=
  if pstrip body = [] then .ok (.arr [])
  else
    match jsonParse body with
    | some v => .ok v
    | none =>
      if (pstrip body).head? = some '<' then
        match extractPre body with
        | some inner =>
          (match jsonParse (pstrip inner) with
           | some v => .ok v
           | none => .error (.malformedPayload .extractNotJson))
        | none => .error (.malformedPayload .htmlNoPre)
      else .error (.malformedPayload .notJson)

/-! ## Transformer: `convert_to_rss` (lines 118-157). -/

/-- Python exceptions escaping `convert_to_rss` on malformed inputs. -/
inductive PyErr where
  | attributeError
  | typeError
deriving DecidableEq

/-- Template literal segments of the item f-string (lines 146-155). -/
def L0 : Str := S "\n    <item>\n        <title><![CDATA["

def M1 : Str := S "]]></title>\n        <link>"

def M2 : Str := S "</link>\n        <guid isPermaLink=\"true\">"

def M3 : Str := S "</guid>\n        <description><![CDATA["

def M4 : Str := S "]]></description>\n        "

def M5 : Str := S "\n        "

def PDTAG : Str := S "<pubDate>"

def PDCTAG : Str := S "</pubDate>"

def ITEMEND : Str := S "\n    </item>\n    "

/-- The enclosure fragment of lines 141-144 (emitted when thumb is truthy). -/
def encFrag (thumb : Str) : Str :=
  S "<enclosure url=\"" ++ thumb ++ S "\" type=\"image/jpeg\"/>"

/-- One `<item>` fragment: the f-string of lines 146-155, split at its
interpolation points. -/
def itemFrag (title link desc enc pd : Str) : Str :=
  L0 ++ title ++ M1 ++ link ++ M2 ++ link ++ M3 ++ desc ++ M4 ++ enc ++ M5 ++
    PDTAG ++ pd ++ PDCTAG ++ ITEMEND

/-- Line 127: `item.get("headline", "")`. -/
def recTitle (kvs : List (Str × Json)) : Json := (pyGet kvs (S "headline")).getD (.str [])

/-- Line 128: `item.get("url", "")`. -/
def recLink (kvs : List (Str × Json)) : Json := (pyGet kvs (S "url")).getD (.str [])

/-- Line 129: `item.get("description", "")`. -/
def recDesc (kvs : List (Str × Json)) : Json := (pyGet kvs (S "description")).getD (.str [])

/-- Line 140: `item.get("thumb")` (default `None`). -/
def recThumb (kvs : List (Str × Json)) : Json := (pyGet kvs (S "thumb")).getD .null

/-- Line 131: a record is kept unless title and link are both falsy. -/
def keptRec (kvs : List (Str × Json)) : Bool :=
  pyTruthy (recTitle kvs) || pyTruthy (recLink kvs)

/-- Lines 140-144: the enclosure string for a record. -/
def recEnc (kvs : List (Str × Json)) : Str :=
  if pyTruthy (recThumb kvs) then encFrag (pyStr (recThumb kvs)) else []

/-- The full `<item>` fragment emitted for a kept record whose `pubDate`
string is `pd` (line 136 reads the wall clock once per kept record). -/
def recFrag (kvs : List (Str × Json)) (pd : Str) : Str :=
  itemFrag (pyStr (recTitle kvs)) (pyStr (recLink kvs)) (pyStr (recDesc kvs)) (recEnc kvs) pd

/-- The loop of lines 126-155.  `clock k` is the RFC-822 string produced by
the k-th `datetime.now` call of the run; `k` advances once per kept record.
A non-dict element raises `AttributeError` at `item.get` (line 127). -/
def convertGo (clock : Nat → Str) : List Json → Nat → Str → Except PyErr Str
  | [], _, acc => .ok acc
  | .obj kvs :: rest, k, acc =>
    if keptRec kvs then convertGo clock rest (k + 1) (acc ++ recFrag kvs (clock k))
    else convertGo clock rest k acc
  | _ :: _, _, _ => .error .attributeError

/-- Lines 118-157: `convert_to_rss`.  A falsy argument returns the empty
string (line 120); enumerating a truthy non-list raises `TypeError` for
non-iterables and `AttributeError` for strings and dicts (whose elements
lack `.get`). -/
def convert_to_rss (clock : Nat → Str) (items : Json) : Except PyErr Str :=
  if pyTruthy items then
    match items with
    | .arr xs => convertGo clock xs 0 []
    | .str _ => .error .attributeError
    | .obj _ => .error .attributeError
    | _ => .error .typeError
  else .ok []

/-! ## Assembler: `build_rss` (lines 160-171). -/

/-- The fixed channel prologue of the feed template, up to the item slot. -/
def PREAMBLE : Str :=
  S "<?xml version=\"1.0\" encoding=\"UTF-8\"?>\n<rss version=\"2.0\">\n<channel>\n    <title>Jugantor Latest News</title>\n    <link>https://www.jugantor.com</link>\n    <description>Latest news from Jugantor</description>\n    "

/-- The fixed closing of the feed template, after the item slot. -/
def TAILB : Str := S "\n</channel>\n</rss>\n"

/-- Lines 160-171: wrap the concatenated item fragments in the channel. -/
def build_rss (itemsXml : Str) : Str := PREAMBLE ++ itemsXml ++ TAILB

/-! ## `main` (lines 181-207) and `save_rss` (lines 174-178). -/

/-- A fatal error escaping `main`'s try block. -/
inductive RunError where
  | fetchError (e : FetchError)
  | pyError (e : PyErr)

/-- The run, given the Fetcher's outcome: convert, build, then (only on
success of everything before it) overwrite the output file.  The second
component is the output file content after the run; `prevFile` is its
content before. -/
def mainRun (fetched : Except FetchError Json) (clock : Nat → Str)
    (prevFile : Option Str) : Except RunError Unit × Option Str :=
  match fetched with
  | .error e => (.error (.fetchError e), prevFile)
  | .ok items =>
    match convert_to_rss clock items with
    | .error e => (.error (.pyError e), prevFile)
    | .ok xml => (.ok (), some (build_rss xml))

/-! ## Specification-side definitions.

These restate behaviour in the vocabulary of the specification (ordered
candidate lookup, filtered record list, round-trip parsing); the theorems
below connect them to the embedded program. -/

/-- Spec section 9 / claim C1: the ordered candidate lookup over the solution
object, "response" then "body" then "html", first present field. -/
def firstPresent (sol : List (Str × Json)) : Option Json :=
  match pyGet sol (S "response") with
  | some v => some v
  | none =>
    match pyGet sol (S "body") with
    | some v => some v
    | none => pyGet sol (S "html")

/-- Skip a candidate that is absent or has a null value. -/
def nonNullOr (v w : Option Json) : Option Json :=
  match v with
  | some .null => w
  | none => w
  | some x => some x

/-- Claim C1's verbatim selection rule: the first of "response", "body",
"html" that is present AND non-null, skipping present-but-null candidates. -/
def firstPresentNonNull (sol : List (Str × Json)) : Option Json :=
  nonNullOr (pyGet sol (S "response"))
    (nonNullOr (pyGet sol (S "body")) (nonNullOr (pyGet sol (S "html")) none))

/-- The records of a JSON array that the Transformer keeps, in input order
(claim C4): object records with a truthy headline or url. -/
def keptOf : List Json → List (List (Str × Json))
  | [] => []
  | .obj kvs :: rest => if keptRec kvs then kvs :: keptOf rest else keptOf rest
  | _ :: rest => keptOf rest

/-- The concatenation of one fragment per kept record, in order, consuming
one clock reading per record starting at index `k`. -/
def fragsOf (clock : Nat → Str) : List (List (Str × Json)) → Nat → Str
  | [], _ => []
  | kvs :: rest, k => recFrag kvs (clock k) ++ fragsOf clock rest (k + 1)

/-- The clock-independent part of a record's fragment, up to the opening
`<pubDate>` tag (claim C8). -/
def itemSeg (kvs : List (Str × Json)) : Str :=
  L0 ++ pyStr (recTitle kvs) ++ M1 ++ pyStr (recLink kvs) ++ M2 ++ pyStr (recLink kvs) ++
    M3 ++ pyStr (recDesc kvs) ++ M4 ++ recEnc kvs ++ M5

/-- The (title, link, description) triple a record contributes to the feed. -/
def recTriple (kvs : List (Str × Json)) : Str × Str × Str :=
  (pyStr (recTitle kvs), pyStr (recLink kvs), pyStr (recDesc kvs))

/-- The triples of all kept records of an array body, in input order. -/
def triplesOf (xs : List Json) : List (Str × Str × Str) :=
  (keptOf xs).map recTriple

/-- A fixed RFC-822 clock for concrete scenarios. -/
def clock0 : Nat → Str := fun _ => S "Wed, 02 Oct 2024 14:33:07 +0000"

/-- Content of the produced document on success (used to state concrete
scenarios without binders). -/
def exceptStr : Except PyErr Str → Str
  | .ok s => s
  | .error _ => []

def isOkConv : Except PyErr Str → Bool
  | .ok _ => true
  | .error _ => false

/-! ## A conformant reader for the emitted document shape.

Modelled from the spec: claims C3 and C5 speak of "parsing the Transformer's
output with a conformant XML parser"; no such parser exists in the repository,
so one is embedded here, specialised to the exact document grammar that
`build_rss` emits.  It enforces the XML 1.0 rules that matter for that
grammar: character data may not contain `]]>` or a raw `&`, attribute values
may not contain `"`, `<` or `&`, CDATA section content ends at the first
`]]>`, and the prologue must declare XML 1.0 with UTF-8. -/

/-- XML 1.0 well-formedness of character data (no `]]>`, no raw `&`;
entity references are not part of the emitted grammar). -/
def charDataOk (t : Str) : Bool := !hasSub (S "]]>") t && !t.contains '&'

/-- Well-formedness of an attribute value in double quotes. -/
def attrOk (t : Str) : Bool := !t.contains '<' && !t.contains '&' && !t.contains '"'

/-- CDATA section content: everything up to the first `]]>`. -/
def scanCdata (s : Str) : Option (Str × Str) := firstSplit (S "]]>") s

/-- Read the pubDate character data and the closing of an item. -/
def parsePdClose (s : Str) : Option Str :=
  let pd := s.takeWhile (fun c => c ≠ '<')
  let s2 := s.dropWhile (fun c => c ≠ '<')
  if charDataOk pd then expectLit (PDCTAG ++ ITEMEND) s2 else none

/-- Read the optional enclosure element and advance to the pubDate data. -/
def parseEncOpt (s : Str) : Option Str :=
  match expectLit (M5 ++ PDTAG) s with
  | some r => some r
  | none =>
    match expectLit (S "<enclosure url=\"") s with
    | none => none
    | some s1 =>
      let thumb := s1.takeWhile (fun c => c ≠ '"')
      let s2 := s1.dropWhile (fun c => c ≠ '"')
      if attrOk thumb then
        expectLit (S "\" type=\"image/jpeg\"/>" ++ M5 ++ PDTAG) s2
      else none

/-- Parse the item list and the channel close, collecting
(title, link, description) triples; fuel decreases once per item. -/
def parseItems : Nat → Str → List (Str × Str × Str) → Option (List (Str × Str × Str))
  | 0, _, _ => none
  | fuel + 1, s, acc =>
    match expectLit L0 s with
    | none =>
      (match expectLit TAILB s with
       | some rest => if rest = [] then some acc.reverse else none
       | none => none)
    | some s1 =>
      match scanCdata s1 with
      | none => none
      | some (title, s2) =>
        match expectLit (S "</title>\n        <link>") s2 with
        | none => none
        | some s3 =>
          let link := s3.takeWhile (fun c => c ≠ '<')
          let s4 := s3.dropWhile (fun c => c ≠ '<')
          if charDataOk link then
            match expectLit M2 s4 with
            | none => none
            | some s5 =>
              let guid := s5.takeWhile (fun c => c ≠ '<')
              let s6 := s5.dropWhile (fun c => c ≠ '<')
              if charDataOk guid && guid == link then
                match expectLit M3 s6 with
                | none => none
                | some s7 =>
                  match scanCdata s7 with
                  | none => none
                  | some (desc, s8) =>
                    match expectLit (S "</description>\n        ") s8 with
                    | none => none
                    | some s9 =>
                      match parseEncOpt s9 with
                      | none => none
                      | some s10 =>
                        match parsePdClose s10 with
                        | none => none
                        | some s11 => parseItems fuel s11 ((title, link, desc) :: acc)
              else none
          else none

/-- Parse a complete emitted document into its item triples; `none` means the
document is rejected (ill-formed for this grammar). -/
def extractTriples (doc : Str) : Option (List (Str × Str × Str)) :=
  match expectLit PREAMBLE doc with
  | some rest => parseItems (doc.length + 1) rest []
  | none => none

/-! ## Claim C8's vocabulary: documents identical except pubDate values. -/

/-- Interleave fixed segments with pubDate elements: the first segment, then
for each time value a `<pubDate>` element followed by the next segment. -/
def interleave : List Str → List Str → Str
  | s :: ss, t :: ts => s ++ PDTAG ++ t ++ PDCTAG ++ interleave ss ts
  | s :: _, [] => s
  | [], _ => []

/-! ## Claim C9's vocabulary: pair scanning for tag occurrence. -/

/-- No `<` immediately followed by `e` anywhere (hence no `<enclosure` tag,
since every piece boundary in a fragment is also covered). -/
def chkPairs : Str → Bool
  | [] => true
  | [_] => true
  | c1 :: c2 :: rest => !(c1 == '<' && c2 == 'e') && chkPairs (c2 :: rest)

/-- Character-goodness of a record's emitted fields, as needed for the
document to be well-formed (claim C3). -/
def cdFree (t : Str) : Bool := !hasSub (S "]]>") t

def linkOk (l : Str) : Bool := !l.contains '<' && charDataOk l

def pdOk (t : Str) : Bool := !t.contains '<' && charDataOk t

def goodRec (kvs : List (Str × Json)) : Bool :=
  cdFree (pyStr (recTitle kvs)) && linkOk (pyStr (recLink kvs)) &&
    cdFree (pyStr (recDesc kvs)) &&
    (!pyTruthy (recThumb kvs) || attrOk (pyStr (recThumb kvs)))

/-! # Lemmas and theorems -/

/-! ## Generic string lemmas -/

theorem isPrefixOf_append_self (l x : Str) : l.isPrefixOf (l ++ x) = true :=
  List.isPrefixOf_iff_prefix.mpr (List.prefix_append l x)

theorem expectLit_append (l x : Str) : expectLit l (l ++ x) = some x := by
  simp [expectLit, isPrefixOf_append_self, List.drop_left]

theorem dropWhile_idem (p : Char → Bool) (l : Str) :
    (l.dropWhile p).dropWhile p = l.dropWhile p := by
  induction l with
  | nil => rfl
  | cons c r ih =>
    by_cases h : p c
    · simpa [List.dropWhile_cons, h] using ih
    · simp [List.dropWhile_cons, h]

theorem dropWhile_head_not (p : Char → Bool) (l : Str) (c : Char)
    (h : (l.dropWhile p).head? = some c) : p c = false := by
  induction l with
  | nil => simp [List.dropWhile] at h
  | cons a r ih =>
    by_cases hp : p a
    · exact ih (by simpa [List.dropWhile_cons, hp] using h)
    · simp [List.dropWhile_cons, hp] at h
      subst h
      simpa using hp

theorem rstrip_prefix (s : Str) : rstrip s <+: s := by
  have h : (s.reverse.dropWhile pyWs) <:+ s.reverse := List.dropWhile_suffix pyWs
  have h2 := List.reverse_prefix.mpr h
  rw [List.reverse_reverse] at h2
  exact h2

theorem rstrip_idem (s : Str) : rstrip (rstrip s) = rstrip s := by
  simp [rstrip, List.reverse_reverse, dropWhile_idem]

theorem pstrip_idem (s : Str) : pstrip (pstrip s) = pstrip s := by
  have hpre : rstrip (s.dropWhile pyWs) <+: s.dropWhile pyWs := rstrip_prefix _
  have hdrop : (pstrip s).dropWhile pyWs = pstrip s := by
    rcases hps : pstrip s with _ | ⟨c, t⟩
    · rfl
    · have hc : (s.dropWhile pyWs).head? = some c := by
        rcases hpre with ⟨u, hu⟩
        rw [pstrip] at hps
        rw [hps] at hu
        rw [← hu]
        simp
      have : pyWs c = false := dropWhile_head_not pyWs s c hc
      simp [List.dropWhile_cons, this]
  rw [pstrip, hdrop, hps_eq]
where
  hps_eq : rstrip (pstrip s) = pstrip s := by
    rw [pstrip, rstrip_idem]

theorem jsonParse_nil : jsonParse ([] : Str) = none := rfl

/-! ## Claim C1 -/

theorem locateBody_sel (sol : List (Str × Json)) :
    locateBody sol =
      (match firstPresent sol with
       | none => .error .envelopeShape
       | some .null => .error .envelopeShape
       | some v => .ok v) := by
  rw [locateBody, firstPresent]
  rcases h1 : pyGet sol (S "response") with _ | v1
  · rcases h2 : pyGet sol (S "body") with _ | v2
    · rcases h3 : pyGet sol (S "html") with _ | v3 <;> simp [h1, h2, h3]
    · simp [h1, h2]
  · simp [h1]

/-- Claim C1 (amended): the Fetcher uses the value of the first of
"response", "body", "html" that is PRESENT in the solution object, whatever
its value; it fails with EnvelopeShapeError both when none of the three is
present and when the first present one holds null — it does NOT fall through
to a later candidate when the first present one is null. -/
theorem claim_C1 (sol : List (Str × Json)) :
    (∀ v, firstPresent sol = some v → v ≠ .null → locateBody sol = .ok v) ∧
    (firstPresent sol = none → locateBody sol = .error .envelopeShape) ∧
    (firstPresent sol = some .null → locateBody sol = .error .envelopeShape) := by
  refine ⟨?_, ?_, ?_⟩
  · intro v hv hnn
    rw [locateBody_sel, hv]
    cases v with
    | null => exact absurd rfl hnn
    | bool b => rfl
    | num n => rfl
    | str s => rfl
    | arr xs => rfl
    | obj kvs => rfl
  · intro h
    rw [locateBody_sel, h]
  · intro h
    rw [locateBody_sel, h]

theorem claim_C1_witness :
    locateBody [(S "body", Json.str (S "x"))] = .ok (Json.str (S "x")) ∧
    locateBody [] = .error .envelopeShape :=
  ⟨(claim_C1 _).1 _ rfl (fun h => Json.noConfusion h), (claim_C1 _).2.1 rfl⟩

/-- Claim C1 counterexample: with `solution = {"response": null, "body": "x"}`
the claim picks "x" (first present NON-NULL candidate, skipping the null
"response"), but the code selects the null "response" by presence alone and
raises the EnvelopeShapeError of line 59. -/
theorem claim_C1_cex :
    firstPresentNonNull [(S "response", Json.null), (S "body", Json.str (S "x"))]
        = some (Json.str (S "x")) ∧
    locateBody [(S "response", Json.null), (S "body", Json.str (S "x"))]
        = .error .envelopeShape :=
  ⟨rfl, rfl⟩

/-! ## Claim C6 -/

/-- Claim C6: an envelope whose status is not the success sentinel "ok" makes
the Fetcher fail with ProxyError, and the proxy's own message is carried in
the error whenever the envelope has one. -/
theorem claim_C6 (data : List (Str × Json))
    (h : pyGet data (S "status") ≠ some (.str (S "ok"))) :
    fetchEnvelope data = .error (.proxyError (msgOf data)) ∧
    (∀ m, pyGet data (S "message") = some m → msgOf data = m) := by
  constructor
  · have hcs : checkStatus data = .error (.proxyError (msgOf data)) := by
      rw [checkStatus]
      rcases hs : pyGet data (S "status") with _ | v
      · rfl
      · cases v with
        | str s =>
          by_cases hok : s = S "ok"
          · exact absurd (by rw [hs, hok]) h
          · simp [hok]
        | null => rfl
        | bool b => rfl
        | num n => rfl
        | arr xs => rfl
        | obj kvs => rfl
    rw [fetchEnvelope, hcs]
  · intro m hm
    rw [msgOf, hm]
    rfl

theorem claim_C6_witness :
    fetchEnvelope [(S "status", Json.str (S "error")), (S "message", Json.str (S "blocked"))]
      = .error (.proxyError (Json.str (S "blocked"))) := by
  have hne : pyGet [(S "status", Json.str (S "error")), (S "message", Json.str (S "blocked"))]
      (S "status") ≠ some (Json.str (S "ok")) := by
    intro hh
    have h1 : some (Json.str (S "error")) = some (Json.str (S "ok")) := hh
    injection h1 with h2
    injection h2 with h3
    exact absurd h3 (by decide)
  exact (claim_C6 _ hne).1

/-! ## Claim C10 -/

/-- Claim C10: a non-empty, non-whitespace body string that parses as JSON is
returned exactly as parsed, whatever its type; the Fetcher performs no shape
validation (that is the Transformer's concern). -/
theorem claim_C10 (body : Str) (v : Json)
    (hne : pstrip body ≠ []) (hp : jsonParse body = some v) :
    processBody body = .ok v := by
  rw [processBody, if_neg hne, hp]

theorem claim_C10_witness :
    pstrip (S "\x7b\"a\": [1, \"x\", null]\x7d") ≠ [] ∧
    processBody (S "\x7b\"a\": [1, \"x\", null]\x7d")
      = .ok (Json.obj [(S "a", Json.arr [Json.num 1, Json.str (S "x"), Json.null])]) :=
  ⟨by decide, claim_C10 _ _ (by decide) rfl⟩

/-! ## Claim C7 -/

/-- Claim C7: when the Fetcher fails, the output file is untouched, and any
run that does change the file got there only after both the fetch and the
transform succeeded, writing the assembled document. -/
theorem claim_C7 (fetched : Except FetchError Json) (clock : Nat → Str)
    (prevFile : Option Str) :
    (∀ e, fetched = .error e →
      mainRun fetched clock prevFile = (.error (.fetchError e), prevFile)) ∧
    ((mainRun fetched clock prevFile).2 ≠ prevFile →
      ∃ items xml, fetched = .ok items ∧ convert_to_rss clock items = .ok xml ∧
        (mainRun fetched clock prevFile).2 = some (build_rss xml)) := by
  constructor
  · intro e he
    rw [he]
    rfl
  · intro hch
    cases fetched with
    | error e => exact absurd rfl hch
    | ok items =>
      rcases hc : convert_to_rss clock items with e | xml
      · rw [mainRun] at hch
        rw [hc] at hch
        exact absurd rfl hch
      · exact ⟨items, xml, rfl, hc, by rw [mainRun, hc]⟩

theorem claim_C7_witness :
    mainRun (.error .envelopeShape) clock0 (some (S "old"))
        = (.error (.fetchError .envelopeShape), some (S "old")) ∧
    (mainRun (.ok (Json.arr [])) clock0 (some (S "old"))).2
        = some (build_rss []) := by
  constructor
  · exact (claim_C7 _ clock0 _).1 _ rfl
  · rcases (claim_C7 (.ok (Json.arr [])) clock0 (some (S "old"))).2
      (by intro hh; exact absurd (Option.some.inj hh) (by decide)) with ⟨items, xml, hi, hc, hw⟩
    have hx : xml = [] := by
      have : convert_to_rss clock0 (Json.arr []) = .ok xml := by
        rw [← hc]
        congr 1
        exact Except.ok.inj hi
      have h0 : convert_to_rss clock0 (Json.arr []) = .ok [] := rfl
      rw [h0] at this
      exact (Except.ok.inj this).symm
    rw [hw, hx]

/-! ## Claim C2 -/

/-- Claim C2 (amended): the HTML-wrapped fallback matches the `<pre>` block
CASE-SENSITIVELY (the code passes only `re.DOTALL`, not `re.IGNORECASE`):
for a body that fails direct JSON parsing and whose stripped text starts
with `<`, a lowercase `<pre>...</pre>` block whose (stripped) inner text is
valid JSON yields the same parsed structure as if that inner text had been
the raw body, and the absence of such a block is a MalformedPayloadError. -/
theorem claim_C2 (body : Str)
    (hfail : jsonParse body = none)
    (hhtml : (pstrip body).head? = some '<') :
    (∀ inner v, extractPre body = some inner → jsonParse (pstrip inner) = some v →
      processBody body = .ok v ∧ processBody (pstrip inner) = .ok v) ∧
    (extractPre body = none →
      processBody body = .error (.malformedPayload .htmlNoPre)) := by
  have hne : pstrip body ≠ [] := by
    intro h0
    rw [h0] at hhtml
    simp at hhtml
  constructor
  · intro inner v hpre hjv
    have hinne : pstrip inner ≠ [] := by
      intro h0
      rw [h0, jsonParse_nil] at hjv
      cases hjv
    constructor
    · simp only [processBody, if_neg hne, hfail, hhtml, hpre, hjv]
      simp
    · simp only [processBody, pstrip_idem, if_neg hinne, hjv]
  · intro hpre
    simp only [processBody, if_neg hne, hfail, hhtml, hpre]
    simp

theorem claim_C2_witness :
    jsonParse (S "<html><pre>[1]</pre></html>") = none ∧
    extractPre (S "<html><pre>[1]</pre></html>") = some (S "[1]") ∧
    processBody (S "<html><pre>[1]</pre></html>") = .ok (Json.arr [Json.num 1]) ∧
    processBody (pstrip (S "[1]")) = .ok (Json.arr [Json.num 1]) := by
  have h := (claim_C2 (S "<html><pre>[1]</pre></html>") rfl rfl).1
    (S "[1]") (Json.arr [Json.num 1]) rfl rfl
  exact ⟨rfl, rfl, h.1, h.2⟩

/-- Claim C2 counterexample: `<PRE>[1]</PRE>` contains (case-insensitively) a
pre block whose inner text `[1]` is valid JSON, so the claim requires the
parsed array to be returned; the code's case-sensitive regex finds no block
and raises the MalformedPayloadError of line 99 instead. -/
theorem claim_C2_cex :
    jsonParse (S "[1]") = some (Json.arr [Json.num 1]) ∧
    extractPre (S "<html><PRE>[1]</PRE></html>") = none ∧
    processBody (S "<html><PRE>[1]</PRE></html>")
      = .error (.malformedPayload .htmlNoPre) :=
  ⟨rfl, rfl, rfl⟩

/-! ## Claim C5 -/

/-- Claim C5: an empty or whitespace-only body is a non-fatal empty result
(line 66 returns `[]`), and the run then terminates normally, writing a
document the conformant reader accepts with zero item triples. -/
theorem claim_C5 (body : Str) (clock : Nat → Str) (prev : Option Str)
    (h : pstrip body = []) :
    processBody body = .ok (Json.arr []) ∧
    mainRun (.ok (Json.arr [])) clock prev = (.ok (), some (build_rss [])) ∧
    extractTriples (build_rss []) = some [] := by
  refine ⟨?_, rfl, rfl⟩
  simp only [processBody, if_pos h]

theorem claim_C5_witness :
    processBody (S " \n\t ") = .ok (Json.arr []) ∧
    extractTriples (build_rss []) = some [] := by
  have h := claim_C5 (S " \n\t ") clock0 none rfl
  exact ⟨h.1, h.2.2⟩

/-! ## Claim C4 -/

theorem convertGo_spec (clock : Nat → Str) (xs : List Json)
    (hobj : ∀ x ∈ xs, x.isObj = true) :
    ∀ k acc, convertGo clock xs k acc = .ok (acc ++ fragsOf clock (keptOf xs) k) := by
  induction xs with
  | nil =>
    intro k acc
    simp [convertGo, keptOf, fragsOf]
  | cons x rest ih =>
    intro k acc
    have hrest : ∀ y ∈ rest, y.isObj = true :=
      fun y hy => hobj y (List.mem_cons_of_mem _ hy)
    cases x with
    | obj kvs =>
      by_cases hk : keptRec kvs
      · simp [convertGo, hk, keptOf, fragsOf, ih hrest (k + 1), List.append_assoc]
      · simp [convertGo, hk, keptOf, ih hrest k]
    | null => exact absurd (hobj _ (List.mem_cons_self _ _)) (by simp [Json.isObj])
    | bool b => exact absurd (hobj _ (List.mem_cons_self _ _)) (by simp [Json.isObj])
    | num n => exact absurd (hobj _ (List.mem_cons_self _ _)) (by simp [Json.isObj])
    | str s => exact absurd (hobj _ (List.mem_cons_self _ _)) (by simp [Json.isObj])
    | arr ys => exact absurd (hobj _ (List.mem_cons_self _ _)) (by simp [Json.isObj])

theorem convert_spec (clock : Nat → Str) (xs : List Json)
    (hobj : ∀ x ∈ xs, x.isObj = true) :
    convert_to_rss clock (.arr xs) = .ok (fragsOf clock (keptOf xs) 0) := by
  cases xs with
  | nil => rfl
  | cons x rest =>
    have ht : pyTruthy (.arr (x :: rest)) = true := by simp [pyTruthy]
    rw [convert_to_rss, if_pos ht]
    exact convertGo_spec clock (x :: rest) hobj 0 []

/-- Claim C4 (amended): for a well-formed JSON array body on the direct-parse
path ALL OF WHOSE ELEMENTS ARE OBJECTS, the Transformer output is exactly the
concatenation of one item fragment per record with a truthy (for strings:
present and non-empty) headline or url, in input order; a record with both
falsy is silently skipped.  (A non-object element instead raises
AttributeError — see the counterexample.) -/
theorem claim_C4 (clock : Nat → Str) (body : Str) (xs : List Json)
    (hne : pstrip body ≠ []) (hp : jsonParse body = some (.arr xs))
    (hobj : xs.all Json.isObj = true) :
    processBody body = .ok (.arr xs) ∧
    convert_to_rss clock (.arr xs) = .ok (fragsOf clock (keptOf xs) 0) := by
  constructor
  · rw [processBody, if_neg hne, hp]
  · exact convert_spec clock xs (by simpa [List.all_eq_true] using hobj)

theorem claim_C4_witness :
    processBody (S "[\x7b\"headline\":\"A\",\"url\":\"u\"\x7d,\x7b\"headline\":\"\",\"url\":\"\"\x7d]")
      = .ok (Json.arr [Json.obj [(S "headline", Json.str (S "A")), (S "url", Json.str (S "u"))],
          Json.obj [(S "headline", Json.str []), (S "url", Json.str [])]]) ∧
    convert_to_rss clock0
        (Json.arr [Json.obj [(S "headline", Json.str (S "A")), (S "url", Json.str (S "u"))],
          Json.obj [(S "headline", Json.str []), (S "url", Json.str [])]])
      = .ok (fragsOf clock0
          (keptOf [Json.obj [(S "headline", Json.str (S "A")), (S "url", Json.str (S "u"))],
            Json.obj [(S "headline", Json.str []), (S "url", Json.str [])]]) 0) :=
  claim_C4 clock0 _ _ (by decide) rfl rfl

/-- Claim C4 counterexample: `[1]` is a well-formed JSON array body on the
direct-parse path and its record has neither title nor link, so the claim
requires it to be silently skipped; the code instead raises AttributeError
at `item.get` (line 127). -/
theorem claim_C4_cex :
    processBody (S "[1]") = .ok (Json.arr [Json.num 1]) ∧
    keptOf [Json.num 1] = [] ∧
    convert_to_rss clock0 (Json.arr [Json.num 1]) = .error .attributeError :=
  ⟨rfl, rfl, rfl⟩

/-! ## Claim C8 -/

theorem recFrag_decomp (kvs : List (Str × Json)) (pd : Str) :
    recFrag kvs pd = itemSeg kvs ++ (PDTAG ++ (pd ++ (PDCTAG ++ ITEMEND))) := by
  simp [recFrag, itemFrag, itemSeg, List.append_assoc]

theorem interleave_prepend (a s : Str) (ss ts : List Str) :
    a ++ interleave (s :: ss) ts = interleave ((a ++ s) :: ss) ts := by
  cases ts with
  | nil => rfl
  | cons t ts' => simp [interleave, List.append_assoc]

theorem convertGo_ok_objs (clock : Nat → Str) (xs : List Json) :
    ∀ k acc r, convertGo clock xs k acc = .ok r → ∀ x ∈ xs, x.isObj = true := by
  induction xs with
  | nil =>
    intro k acc r _ x hx
    cases hx
  | cons x rest ih =>
    intro k acc r hok y hy
    cases x with
    | obj kvs =>
      rcases List.mem_cons.mp hy with hyx | hyr
      · rw [hyx]; rfl
      · by_cases hk : keptRec kvs
        · exact ih _ _ _ (by simpa [convertGo, hk] using hok) y hyr
        · exact ih _ _ _ (by simpa [convertGo, hk] using hok) y hyr
    | null => simp [convertGo] at hok
    | bool b => simp [convertGo] at hok
    | num n => simp [convertGo] at hok
    | str s => simp [convertGo] at hok
    | arr ys => simp [convertGo] at hok

theorem fragsOf_interleave (c1 c2 : Nat → Str) (ks : List (List (Str × Json))) :
    ∀ k tail0, ∃ s0 ss,
      fragsOf c1 ks k ++ tail0
        = interleave (s0 :: ss) ((List.range' k ks.length).map c1) ∧
      fragsOf c2 ks k ++ tail0
        = interleave (s0 :: ss) ((List.range' k ks.length).map c2) := by
  induction ks with
  | nil =>
    intro k tail0
    exact ⟨tail0, [], by simp [fragsOf, interleave], by simp [fragsOf, interleave]⟩
  | cons kvs rest ih =>
    intro k tail0
    obtain ⟨s0, ss, h1, h2⟩ := ih (k + 1) tail0
    refine ⟨itemSeg kvs, (ITEMEND ++ s0) :: ss, ?_, ?_⟩
    · rw [List.length_cons, List.range'_succ, List.map_cons]
      rw [show fragsOf c1 (kvs :: rest) k
            = recFrag kvs (c1 k) ++ fragsOf c1 rest (k + 1) from rfl]
      have hint1 : interleave (itemSeg kvs :: (ITEMEND ++ s0) :: ss)
              (c1 k :: (List.range' (k + 1) rest.length).map c1)
            = itemSeg kvs ++ (PDTAG ++ (c1 k ++ (PDCTAG ++
                interleave ((ITEMEND ++ s0) :: ss)
                  ((List.range' (k + 1) rest.length).map c1)))) := by
        simp [interleave, List.append_assoc]
      rw [hint1]
      rw [← interleave_prepend ITEMEND s0 ss, ← h1, recFrag_decomp]
      simp [List.append_assoc]
    · rw [List.length_cons, List.range'_succ, List.map_cons]
      rw [show fragsOf c2 (kvs :: rest) k
            = recFrag kvs (c2 k) ++ fragsOf c2 rest (k + 1) from rfl]
      have hint2 : interleave (itemSeg kvs :: (ITEMEND ++ s0) :: ss)
              (c2 k :: (List.range' (k + 1) rest.length).map c2)
            = itemSeg kvs ++ (PDTAG ++ (c2 k ++ (PDCTAG ++
                interleave ((ITEMEND ++ s0) :: ss)
                  ((List.range' (k + 1) rest.length).map c2)))) := by
        simp [interleave, List.append_assoc]
      rw [hint2]
      rw [← interleave_prepend ITEMEND s0 ss, ← h2, recFrag_decomp]
      simp [List.append_assoc]

/-- Claim C8: two runs over the same payload write documents that are
identical except for the values inside the `<pubDate>` elements: both
documents are the same fixed segments interleaved with that run's clock
strings wrapped in `<pubDate>...</pubDate>`. -/
theorem claim_C8 (items : Json) (c1 c2 : Nat → Str) (d1 d2 : Str)
    (h1 : (mainRun (.ok items) c1 none).2 = some d1)
    (h2 : (mainRun (.ok items) c2 none).2 = some d2) :
    ∃ s0 ss n,
      d1 = interleave (s0 :: ss) ((List.range n).map c1) ∧
      d2 = interleave (s0 :: ss) ((List.range n).map c2) := by
  rcases hc1 : convert_to_rss c1 items with e1 | xml1
  · simp only [mainRun, hc1] at h1
    cases h1
  rcases hc2 : convert_to_rss c2 items with e2 | xml2
  · simp only [mainRun, hc2] at h2
    cases h2
  simp only [mainRun, hc1] at h1
  simp only [mainRun, hc2] at h2
  have hd1 : d1 = build_rss xml1 := (Option.some.inj h1).symm
  have hd2 : d2 = build_rss xml2 := (Option.some.inj h2).symm
  by_cases ht : pyTruthy items = true
  · cases items with
    | arr xs =>
      have hobj : ∀ x ∈ xs, x.isObj = true :=
        convertGo_ok_objs c1 xs 0 [] xml1 (by simpa [convert_to_rss, ht] using hc1)
      have hgo1 : convertGo c1 xs 0 [] = .ok (fragsOf c1 (keptOf xs) 0) := by
        simpa using convertGo_spec c1 xs hobj 0 []
      have hgo2 : convertGo c2 xs 0 [] = .ok (fragsOf c2 (keptOf xs) 0) := by
        simpa using convertGo_spec c2 xs hobj 0 []
      have hx1 : xml1 = fragsOf c1 (keptOf xs) 0 := by
        have h' : (Except.ok xml1 : Except PyErr Str) = .ok (fragsOf c1 (keptOf xs) 0) := by
          rw [← hgo1]
          simpa [convert_to_rss, ht] using hc1.symm
        simpa using h'
      have hx2 : xml2 = fragsOf c2 (keptOf xs) 0 := by
        have h' : (Except.ok xml2 : Except PyErr Str) = .ok (fragsOf c2 (keptOf xs) 0) := by
          rw [← hgo2]
          simpa [convert_to_rss, ht] using hc2.symm
        simpa using h'
      obtain ⟨s0, ss, hi1, hi2⟩ := fragsOf_interleave c1 c2 (keptOf xs) 0 TAILB
      refine ⟨PREAMBLE ++ s0, ss, (keptOf xs).length, ?_, ?_⟩
      · rw [hd1, hx1, build_rss, List.append_assoc, hi1, List.range_eq_range']
        exact interleave_prepend PREAMBLE s0 ss _
      · rw [hd2, hx2, build_rss, List.append_assoc, hi2, List.range_eq_range']
        exact interleave_prepend PREAMBLE s0 ss _
    | null => simp [pyTruthy] at ht
    | bool b =>
      cases b with
      | false => simp [pyTruthy] at ht
      | true => simp [convert_to_rss, pyTruthy] at hc1
    | num n => simp [convert_to_rss, ht] at hc1
    | str s => simp [convert_to_rss, ht] at hc1
    | obj kvs => simp [convert_to_rss, ht] at hc1
  · have hx1 : xml1 = [] := by
      have h' : (Except.ok xml1 : Except PyErr Str) = .ok ([] : Str) := by
        simpa [convert_to_rss, ht] using hc1.symm
      simpa using Except.ok.inj h'
    have hx2 : xml2 = [] := by
      have h' : (Except.ok xml2 : Except PyErr Str) = .ok ([] : Str) := by
        simpa [convert_to_rss, ht] using hc2.symm
      simpa using Except.ok.inj h'
    refine ⟨PREAMBLE ++ TAILB, [], 0, ?_, ?_⟩
    · rw [hd1, hx1]
      simp [build_rss, interleave]
    · rw [hd2, hx2]
      simp [build_rss, interleave]

theorem claim_C8_witness :
    ∃ s0 ss n,
      (build_rss (fragsOf clock0 (keptOf [Json.obj [(S "headline", Json.str (S "A"))]]) 0))
        = interleave (s0 :: ss) ((List.range n).map clock0) ∧
      (build_rss (fragsOf (fun k => S "Thu, 03 Oct 2024 09:00:01 +0000" ++ S (toString k))
            (keptOf [Json.obj [(S "headline", Json.str (S "A"))]]) 0))
        = interleave (s0 :: ss)
            ((List.range n).map (fun k => S "Thu, 03 Oct 2024 09:00:01 +0000" ++ S (toString k))) :=
  claim_C8 (Json.arr [Json.obj [(S "headline", Json.str (S "A"))]]) clock0
    (fun k => S "Thu, 03 Oct 2024 09:00:01 +0000" ++ S (toString k)) _ _ rfl rfl

/-! ## Claim C9 -/

theorem hasSub_nil_left (s : Str) : hasSub [] s = true := by
  cases s with
  | nil => rfl
  | cons c r => simp [hasSub, List.isPrefixOf]

theorem isPrefixOf_mono (d s b : Str) (h : d.isPrefixOf s = true) :
    d.isPrefixOf (s ++ b) = true :=
  List.isPrefixOf_iff_prefix.mpr ((List.isPrefixOf_iff_prefix.mp h).trans (List.prefix_append s b))

theorem hasSub_append_left (d a b : Str) (h : hasSub d a = true) :
    hasSub d (a ++ b) = true := by
  induction a with
  | nil =>
    have hd : d = [] := by simpa [hasSub, List.isEmpty_iff] using h
    rw [hd]
    exact hasSub_nil_left _
  | cons c a' ih =>
    rw [hasSub] at h
    rcases Bool.or_eq_true_iff.mp h with hpre | hsub
    · show hasSub d (c :: (a' ++ b)) = true
      rw [hasSub]
      have h2 : d.isPrefixOf (c :: (a' ++ b)) = true := isPrefixOf_mono d (c :: a') b hpre
      rw [h2, Bool.true_or]
    · show hasSub d (c :: (a' ++ b)) = true
      rw [hasSub]
      rw [ih hsub, Bool.or_true]

theorem hasSub_append_right (d a b : Str) (h : hasSub d b = true) :
    hasSub d (a ++ b) = true := by
  induction a with
  | nil => simpa using h
  | cons c a' ih =>
    show hasSub d (c :: (a' ++ b)) = true
    rw [hasSub]
    simp [ih]

theorem hasSub_exists (d s : Str) (h : hasSub d s = true) :
    ∃ x y, s = x ++ (d ++ y) := by
  induction s with
  | nil =>
    have hd : d = [] := by simpa [hasSub, List.isEmpty_iff] using h
    exact ⟨[], [], by simp [hd]⟩
  | cons c rest ih =>
    rw [hasSub] at h
    rcases Bool.or_eq_true_iff.mp h with hpre | hsub
    · rcases List.isPrefixOf_iff_prefix.mp hpre with ⟨y, hy⟩
      exact ⟨[], y, by simp [hy]⟩
    · rcases ih hsub with ⟨x, y, hxy⟩
      exact ⟨c :: x, y, by simp [hxy]⟩

theorem chkPairs_tail (c : Char) (t : Str) (h : chkPairs (c :: t) = true) :
    chkPairs t = true := by
  cases t with
  | nil => rfl
  | cons c2 r =>
    rw [chkPairs] at h
    exact (Bool.and_eq_true_iff.mp h).2

theorem chkPairs_pair (x y : Str) : chkPairs (x ++ ('<' :: 'e' :: y)) = false := by
  induction x with
  | nil => simp [chkPairs]
  | cons c x' ih =>
    cases x' with
    | nil =>
      show chkPairs (c :: '<' :: 'e' :: y) = false
      rw [chkPairs]
      have : chkPairs ('<' :: 'e' :: y) = false := by simp [chkPairs]
      simp [this]
    | cons c2 x'' =>
      show chkPairs (c :: (c2 :: (x'' ++ ('<' :: 'e' :: y)))) = false
      rw [chkPairs]
      have : chkPairs (c2 :: (x'' ++ ('<' :: 'e' :: y))) = false := ih
      simp [this]

theorem chkPairs_no_enc (s : Str) (h : chkPairs s = true) :
    hasSub (S "<enclosure") s = false := by
  by_contra hh
  have htrue : hasSub (S "<enclosure") s = true := by
    cases hx : hasSub (S "<enclosure") s with
    | false => exact absurd hx hh
    | true => rfl
  obtain ⟨x, y, hxy⟩ := hasSub_exists _ _ htrue
  have hshape : s = x ++ ('<' :: 'e' :: (S "nclosure" ++ y)) := by
    rw [hxy]
    rfl
  rw [hshape, chkPairs_pair] at h
  cases h

theorem chkPairs_append : ∀ a b : Str, chkPairs a = true → chkPairs b = true →
    a.getLast? ≠ some '<' → chkPairs (a ++ b) = true
  | [], b, _, hb, _ => by simpa using hb
  | [c], b, _, hb, hlast => by
    cases b with
    | nil => rfl
    | cons b0 bs =>
      show chkPairs (c :: b0 :: bs) = true
      rw [chkPairs]
      have hc : ¬(c = '<' ∧ b0 = 'e') := by
        rintro ⟨hc1, _⟩
        exact hlast (by rw [hc1]; rfl)
      have hcb : (c == '<' && b0 == 'e') = false := by
        rcases Decidable.em (c = '<') with h1 | h1
        · rcases Decidable.em (b0 = 'e') with h2 | h2
          · exact absurd ⟨h1, h2⟩ hc
          · simp [h2]
        · simp [h1]
      simp [hcb, hb]
  | c1 :: c2 :: a', b, ha, hb, hlast => by
    rw [chkPairs] at ha
    obtain ⟨ha1, ha2⟩ := Bool.and_eq_true_iff.mp ha
    have hlast2 : (c2 :: a').getLast? ≠ some '<' := by
      rw [List.getLast?_cons_cons] at hlast
      exact hlast
    have ih := chkPairs_append (c2 :: a') b ha2 hb hlast2
    show chkPairs (c1 :: (c2 :: (a' ++ b))) = true
    rw [chkPairs]
    have : (c2 :: (a' ++ b)) = (c2 :: a') ++ b := rfl
    rw [this, ih, ha1]
    rfl

theorem contains_false_chkPairs (t : Str) (ht : t.contains '<' = false) :
    chkPairs t = true := by
  induction t with
  | nil => rfl
  | cons c r ih =>
    have hc : c ≠ '<' := by
      intro hc
      rw [hc] at ht
      simp [List.contains_cons] at ht
    have hr : r.contains '<' = false := by
      cases hx : r.contains '<' with
      | false => rfl
      | true =>
        rw [List.contains_cons, hx, Bool.or_true] at ht
        cases ht
    cases r with
    | nil => rfl
    | cons c2 r2 =>
      rw [chkPairs]
      have hcb : (c == '<' && c2 == 'e') = false := by
        have : (c == '<') = false := by simpa using hc
        simp [this]
      simp [hcb, ih hr]

theorem contains_false_getLast (t : Str) (ht : t.contains '<' = false) :
    t.getLast? ≠ some '<' := by
  intro h
  have hm : '<' ∈ t := List.mem_of_mem_getLast? h
  rw [← List.elem_iff] at hm
  rw [show t.contains '<' = t.elem '<' from rfl] at ht
  rw [hm] at ht
  cases ht

theorem chkPairs_append_var (t b : Str) (ht : t.contains '<' = false)
    (hb : chkPairs b = true) : chkPairs (t ++ b) = true :=
  chkPairs_append t b (contains_false_chkPairs t ht) hb (contains_false_getLast t ht)

theorem chkPairs_itemFrag (t l d pd : Str)
    (ht : t.contains '<' = false) (hl : l.contains '<' = false)
    (hd : d.contains '<' = false) (hp : pd.contains '<' = false) :
    chkPairs (itemFrag t l d [] pd) = true := by
  have he : itemFrag t l d [] pd
      = L0 ++ (t ++ (M1 ++ (l ++ (M2 ++ (l ++ (M3 ++ (d ++ (M4 ++ (M5 ++
          (PDTAG ++ (pd ++ (PDCTAG ++ ITEMEND)))))))))))) := by
    simp [itemFrag, List.append_assoc]
  rw [he]
  refine chkPairs_append _ _ (by decide) ?_ (by decide)
  refine chkPairs_append_var t _ ht ?_
  refine chkPairs_append _ _ (by decide) ?_ (by decide)
  refine chkPairs_append_var l _ hl ?_
  refine chkPairs_append _ _ (by decide) ?_ (by decide)
  refine chkPairs_append_var l _ hl ?_
  refine chkPairs_append _ _ (by decide) ?_ (by decide)
  refine chkPairs_append_var d _ hd ?_
  refine chkPairs_append _ _ (by decide) ?_ (by decide)
  refine chkPairs_append _ _ (by decide) ?_ (by decide)
  refine chkPairs_append _ _ (by decide) ?_ (by decide)
  refine chkPairs_append_var pd _ hp ?_
  decide

theorem hasSub_encFrag (w : Str) : hasSub (S "<enclosure") (encFrag w) = true := by
  have he : encFrag w = S "<enclosure url=\"" ++ (w ++ S "\" type=\"image/jpeg\"/>") := by
    simp [encFrag, List.append_assoc]
  rw [he]
  exact hasSub_append_left _ _ _ (by decide)

theorem hasSub_itemFrag_enc (t l d pd w : Str) :
    hasSub (S "<enclosure") (itemFrag t l d (encFrag w) pd) = true := by
  have he : itemFrag t l d (encFrag w) pd
      = (L0 ++ t ++ M1 ++ l ++ M2 ++ l ++ M3 ++ d ++ M4) ++
          (encFrag w ++ (M5 ++ (PDTAG ++ (pd ++ (PDCTAG ++ ITEMEND))))) := by
    simp [itemFrag, List.append_assoc]
  rw [he]
  exact hasSub_append_right _ _ _ (hasSub_append_left _ _ _ (hasSub_encFrag w))

/-- Claim C9: an `<enclosure>` element (typed image/jpeg, referencing the
thumbnail URL) appears in a record's emitted item if and only if the record's
thumb field is present with a non-empty string value; a record without a
thumb (or with an empty one) produces an item containing no enclosure tag of
any kind.  The concrete scenario of the spec is settled verbatim: the body
`[{"headline":"A",...},{"headline":"","url":""},{"headline":"B",...,"thumb":...}]`
yields exactly two items, the second carrying the enclosure and the first
not. -/
theorem claim_C9 :
    (∀ kvs pd,
      (pyGet kvs (S "thumb") = none ∨ ∃ w, pyGet kvs (S "thumb") = some (.str w)) →
      (pyStr (recTitle kvs)).contains '<' = false →
      (pyStr (recLink kvs)).contains '<' = false →
      (pyStr (recDesc kvs)).contains '<' = false →
      pd.contains '<' = false →
      (hasSub (S "<enclosure") (recFrag kvs pd) = true ↔
        ∃ w, pyGet kvs (S "thumb") = some (.str w) ∧ w ≠ [])) ∧
    (processBody (S "[\x7b\"headline\":\"A\",\"url\":\"http://x/1\"\x7d,\x7b\"headline\":\"\",\"url\":\"\"\x7d,\x7b\"headline\":\"B\",\"url\":\"http://x/2\",\"thumb\":\"http://x/t.jpg\"\x7d]")
        = .ok (Json.arr
            [Json.obj [(S "headline", Json.str (S "A")), (S "url", Json.str (S "http://x/1"))],
             Json.obj [(S "headline", Json.str []), (S "url", Json.str [])],
             Json.obj [(S "headline", Json.str (S "B")), (S "url", Json.str (S "http://x/2")),
               (S "thumb", Json.str (S "http://x/t.jpg"))]]) ∧
     convert_to_rss clock0 (Json.arr
            [Json.obj [(S "headline", Json.str (S "A")), (S "url", Json.str (S "http://x/1"))],
             Json.obj [(S "headline", Json.str []), (S "url", Json.str [])],
             Json.obj [(S "headline", Json.str (S "B")), (S "url", Json.str (S "http://x/2")),
               (S "thumb", Json.str (S "http://x/t.jpg"))]])
        = .ok (recFrag [(S "headline", Json.str (S "A")), (S "url", Json.str (S "http://x/1"))] (clock0 0)
            ++ recFrag [(S "headline", Json.str (S "B")), (S "url", Json.str (S "http://x/2")),
               (S "thumb", Json.str (S "http://x/t.jpg"))] (clock0 1)) ∧
     countSub (S "<item>")
        (recFrag [(S "headline", Json.str (S "A")), (S "url", Json.str (S "http://x/1"))] (clock0 0)
          ++ recFrag [(S "headline", Json.str (S "B")), (S "url", Json.str (S "http://x/2")),
               (S "thumb", Json.str (S "http://x/t.jpg"))] (clock0 1)) = 2 ∧
     hasSub (S "<enclosure")
        (recFrag [(S "headline", Json.str (S "A")), (S "url", Json.str (S "http://x/1"))] (clock0 0)) = false ∧
     hasSub (S "<enclosure")
        (recFrag [(S "headline", Json.str (S "B")), (S "url", Json.str (S "http://x/2")),
               (S "thumb", Json.str (S "http://x/t.jpg"))] (clock0 1)) = true) := by
  constructor
  · intro kvs pd hscope ht hl hd hp
    constructor
    · intro hhas
      rcases hscope with hnone | ⟨w, hw⟩
      · exfalso
        have henc : recEnc kvs = [] := by
          simp [recEnc, recThumb, hnone, pyTruthy]
        have hfr : recFrag kvs pd
            = itemFrag (pyStr (recTitle kvs)) (pyStr (recLink kvs)) (pyStr (recDesc kvs)) [] pd := by
          rw [recFrag, henc]
        rw [hfr, chkPairs_no_enc _ (chkPairs_itemFrag _ _ _ _ ht hl hd hp)] at hhas
        cases hhas
      · rcases Decidable.em (w = []) with hwe | hwe
        · exfalso
          have henc : recEnc kvs = [] := by
            simp [recEnc, recThumb, hw, hwe, pyTruthy]
          have hfr : recFrag kvs pd
              = itemFrag (pyStr (recTitle kvs)) (pyStr (recLink kvs)) (pyStr (recDesc kvs)) [] pd := by
            rw [recFrag, henc]
          rw [hfr, chkPairs_no_enc _ (chkPairs_itemFrag _ _ _ _ ht hl hd hp)] at hhas
          cases hhas
        · exact ⟨w, hw, hwe⟩
    · rintro ⟨w, hw, hwe⟩
      have henc : recEnc kvs = encFrag w := by
        simp [recEnc, recThumb, hw, pyTruthy, hwe, pyStr, List.isEmpty_iff]
      rw [recFrag, henc]
      exact hasSub_itemFrag_enc _ _ _ _ _
  · exact ⟨rfl, rfl, by decide, by decide, by decide⟩

theorem claim_C9_witness :
    hasSub (S "<enclosure")
      (recFrag [(S "headline", Json.str (S "B")), (S "thumb", Json.str (S "t.jpg"))]
        (clock0 0)) = true ∧
    hasSub (S "<enclosure")
      (recFrag [(S "headline", Json.str (S "B"))] (clock0 0)) = false := by
  constructor
  · exact (claim_C9.1 [(S "headline", Json.str (S "B")), (S "thumb", Json.str (S "t.jpg"))]
      (clock0 0) (Or.inr ⟨S "t.jpg", rfl⟩) rfl rfl rfl rfl).mpr
      ⟨S "t.jpg", rfl, by decide⟩
  · have h := claim_C9.1 [(S "headline", Json.str (S "B"))] (clock0 0) (Or.inl rfl) rfl rfl rfl rfl
    cases hx : hasSub (S "<enclosure")
        (recFrag [(S "headline", Json.str (S "B"))] (clock0 0)) with
    | false => rfl
    | true =>
      obtain ⟨w, hw, _⟩ := h.mp hx
      cases hw

/-! ## Claim C3 -/

theorem not_mem_of_contains_false (a : Str) (x : Char) (h : a.contains x = false) :
    x ∉ a := by
  intro hm
  rw [show a.contains x = a.elem x from rfl, List.elem_iff.mpr hm] at h
  cases h

theorem takeWhile_planted (p : Char → Bool) (a : Str) (ha : ∀ c ∈ a, p c = true)
    (x : Char) (hx : p x = false) (b : Str) :
    (a ++ (x :: b)).takeWhile p = a ∧ (a ++ (x :: b)).dropWhile p = x :: b := by
  induction a with
  | nil => simp [List.takeWhile_cons, List.dropWhile_cons, hx]
  | cons c a' ih =>
    have hc : p c = true := ha c (List.mem_cons_self _ _)
    have ih' := ih (fun c2 hc2 => ha c2 (List.mem_cons_of_mem _ hc2))
    constructor
    · show ((c :: (a' ++ (x :: b))).takeWhile p) = c :: a'
      rw [List.takeWhile_cons, hc, if_pos rfl, ih'.1]
    · show ((c :: (a' ++ (x :: b))).dropWhile p) = x :: b
      rw [List.dropWhile_cons]
      simp only [hc, if_pos]
      exact ih'.2

theorem mem_ne_of_contains_false (a : Str) (x : Char) (h : a.contains x = false) :
    ∀ c ∈ a, (decide (c ≠ x)) = true :=
  fun c hc => decide_eq_true (fun heq => not_mem_of_contains_false a x h (heq ▸ hc))

theorem takeLt_planted (a : Str) (h : a.contains '<' = false) (b : Str) :
    (a ++ ('<' :: b)).takeWhile (fun c => c ≠ '<') = a :=
  (takeWhile_planted _ a (mem_ne_of_contains_false a '<' h) '<' (by decide) b).1

theorem dropLt_planted (a : Str) (h : a.contains '<' = false) (b : Str) :
    (a ++ ('<' :: b)).dropWhile (fun c => c ≠ '<') = '<' :: b :=
  (takeWhile_planted _ a (mem_ne_of_contains_false a '<' h) '<' (by decide) b).2

theorem takeQ_planted (a : Str) (h : a.contains '"' = false) (b : Str) :
    (a ++ ('"' :: b)).takeWhile (fun c => c ≠ '"') = a :=
  (takeWhile_planted _ a (mem_ne_of_contains_false a '"' h) '"' (by decide) b).1

theorem dropQ_planted (a : Str) (h : a.contains '"' = false) (b : Str) :
    (a ++ ('"' :: b)).dropWhile (fun c => c ≠ '"') = '"' :: b :=
  (takeWhile_planted _ a (mem_ne_of_contains_false a '"' h) '"' (by decide) b).2

theorem firstSplit_cd (a : Str) (h : hasSub (S "]]>") a = false) (b : Str) :
    firstSplit (S "]]>") (a ++ (S "]]>" ++ b)) = some (a, b) := by
  induction a with
  | nil =>
    rw [List.nil_append]
    have h1 : S "]]>" ++ b = ']' :: (']' :: '>' :: b) := rfl
    rw [h1]
    simp only [firstSplit]
    have hpre : (S "]]>").isPrefixOf (']' :: ']' :: '>' :: b) = true := by
      show (S "]]>").isPrefixOf (S "]]>" ++ b) = true
      exact isPrefixOf_append_self _ _
    rw [if_pos hpre]
    have hdrop : (']' :: ']' :: '>' :: b).drop (S "]]>").length = b := by
      show (S "]]>" ++ b).drop (S "]]>").length = b
      exact List.drop_left _ _
    rw [hdrop]
  | cons c a' ih =>
    rw [hasSub] at h
    have hpre : (S "]]>").isPrefixOf (c :: a') = false := by
      cases hx : (S "]]>").isPrefixOf (c :: a') with
      | false => rfl
      | true => rw [hx, Bool.true_or] at h; cases h
    have hrest : hasSub (S "]]>") a' = false := by
      cases hx : hasSub (S "]]>") a' with
      | false => rfl
      | true => rw [hx, Bool.or_true] at h; cases h
    show firstSplit (S "]]>") (c :: (a' ++ (S "]]>" ++ b))) = some (c :: a', b)
    simp only [firstSplit]
    have hng : (S "]]>").isPrefixOf (c :: (a' ++ (S "]]>" ++ b))) = false := by
      cases a' with
      | nil => simp [List.isPrefixOf, S]
      | cons a2 a'' =>
        cases a'' with
        | nil => simp [List.isPrefixOf, S]
        | cons a3 a''' =>
          have heq : (S "]]>").isPrefixOf (c :: (a2 :: a3 :: a''') ++ (S "]]>" ++ b))
              = (S "]]>").isPrefixOf (c :: a2 :: a3 :: a''') := by
            simp [List.isPrefixOf, S]
          rw [show (c :: ((a2 :: a3 :: a''') ++ (S "]]>" ++ b)))
                = (c :: (a2 :: a3 :: a''') ++ (S "]]>" ++ b)) from rfl, heq]
          exact hpre
    rw [if_neg (by rw [hng]; exact Bool.false_ne_true)]
    rw [ih hrest]
    rfl

theorem scanCdata_planted (a : Str) (h : hasSub (S "]]>") a = false) (b : Str) :
    scanCdata (a ++ (S "]]>" ++ b)) = some (a, b) := firstSplit_cd a h b

theorem expectLit_cons (c : Char) (lit x : Str) :
    expectLit (c :: lit) (c :: (lit ++ x)) = some x := by
  have h := expectLit_append (c :: lit) x
  simpa using h

theorem st_encNone (x : Str) : parseEncOpt (M5 ++ (PDTAG ++ x)) = some x := by
  simp only [parseEncOpt]
  rw [show M5 ++ (PDTAG ++ x) = (M5 ++ PDTAG) ++ x from (List.append_assoc _ _ _).symm,
    expectLit_append]

theorem st_pdClose (pd : Str) (h1 : pd.contains '<' = false) (h2 : charDataOk pd = true)
    (x : Str) : parsePdClose (pd ++ (PDCTAG ++ (ITEMEND ++ x))) = some x := by
  simp only [parsePdClose]
  rw [show PDCTAG ++ (ITEMEND ++ x) = '<' :: (S "/pubDate>" ++ (ITEMEND ++ x)) from rfl]
  rw [takeLt_planted pd h1, dropLt_planted pd h1]
  rw [show ('<' :: (S "/pubDate>" ++ (ITEMEND ++ x)) : Str) = (PDCTAG ++ ITEMEND) ++ x from rfl]
  rw [expectLit_append]
  simp [h2]

theorem contains_false_of_not_mem (a : Str) (x : Char) (h : x ∉ a) :
    a.contains x = false := by
  cases hx : a.contains x with
  | false => rfl
  | true =>
    rw [show a.contains x = a.elem x from rfl] at hx
    exact absurd (List.elem_iff.mp hx) h

theorem st_encSome (w : Str) (hw : attrOk w = true) (x : Str) :
    parseEncOpt (encFrag w ++ (M5 ++ (PDTAG ++ x))) = some x := by
  obtain ⟨⟨hwlt, hwamp⟩, hwq0⟩ : ('<' ∉ w ∧ '&' ∉ w) ∧ '"' ∉ w := by
    simpa [attrOk, Bool.and_eq_true] using hw
  have hwq : w.contains '"' = false := contains_false_of_not_mem w '"' hwq0
  have hshape : encFrag w ++ (M5 ++ (PDTAG ++ x))
      = S "<enclosure url=\"" ++ (w ++ ('"' :: (S " type=\"image/jpeg\"/>" ++ (M5 ++ (PDTAG ++ x))))) := by
    simp [encFrag, List.append_assoc]
    rfl
  have hno : expectLit (M5 ++ PDTAG)
      (S "<enclosure url=\"" ++ (w ++ ('"' :: (S " type=\"image/jpeg\"/>" ++ (M5 ++ (PDTAG ++ x)))))) = none := by
    rw [show (M5 ++ PDTAG : Str) = '\n' :: S "        <pubDate>" from rfl]
    rw [show S "<enclosure url=\"" ++ (w ++ ('"' :: (S " type=\"image/jpeg\"/>" ++ (M5 ++ (PDTAG ++ x)))))
          = '<' :: (S "enclosure url=\"" ++ (w ++ ('"' :: (S " type=\"image/jpeg\"/>" ++ (M5 ++ (PDTAG ++ x)))))) from rfl]
    simp [expectLit, List.isPrefixOf]
  have hfin : expectLit (S "\" type=\"image/jpeg\"/>" ++ M5 ++ PDTAG)
      ('"' :: (S " type=\"image/jpeg\"/>" ++ (M5 ++ (PDTAG ++ x)))) = some x := by
    rw [show ('"' :: (S " type=\"image/jpeg\"/>" ++ (M5 ++ (PDTAG ++ x))) : Str)
          = (S "\" type=\"image/jpeg\"/>" ++ M5 ++ PDTAG) ++ x from rfl]
    exact expectLit_append _ _
  simp only [parseEncOpt, hshape, hno, expectLit_append, takeQ_planted w hwq,
    dropQ_planted w hwq, hw, eq_self_iff_true, if_true, hfin]

theorem parseItems_step (fuel : Nat) (t l d pd enc rest : Str)
    (acc : List (Str × Str × Str))
    (ht : cdFree t = true) (hlk : linkOk l = true) (hd : cdFree d = true)
    (hpd : pdOk pd = true)
    (henc : enc = [] ∨ ∃ w, enc = encFrag w ∧ attrOk w = true) :
    parseItems (fuel + 1) (itemFrag t l d enc pd ++ rest) acc
      = parseItems fuel rest ((t, l, d) :: acc) := by
  have htcd : hasSub (S "]]>") t = false := by
    simpa [cdFree] using ht
  have hdcd : hasSub (S "]]>") d = false := by
    simpa [cdFree] using hd
  obtain ⟨hllt, hlcd⟩ : l.contains '<' = false ∧ charDataOk l = true := by
    simpa [linkOk, Bool.and_eq_true] using hlk
  obtain ⟨hplt, hpcd⟩ : pd.contains '<' = false ∧ charDataOk pd = true := by
    simpa [pdOk, Bool.and_eq_true] using hpd
  have hM1 : M1 = S "]]>" ++ S "</title>\n        <link>" := rfl
  have hM2 : M2 = '<' :: S "/link>\n        <guid isPermaLink=\"true\">" := rfl
  have hM3 : M3 = '<' :: S "/guid>\n        <description><![CDATA[" := rfl
  have hM4 : M4 = S "]]>" ++ S "</description>\n        " := rfl
  simp only [parseItems, itemFrag, hM1, hM2, hM3, hM4, List.append_assoc, List.cons_append,
    expectLit_append, expectLit_cons, scanCdata_planted t htcd, scanCdata_planted d hdcd,
    takeLt_planted l hllt, dropLt_planted l hllt, hlcd, hpcd, beq_self_eq_true,
    Bool.and_self, Bool.and_true, Bool.true_and, eq_self_iff_true, if_true]
  rcases henc with henc | ⟨w, henc, hwattr⟩
  · subst henc
    simp only [List.nil_append, st_encNone, st_pdClose pd hplt hpcd]
  · subst henc
    simp only [st_encSome w hwattr, st_pdClose pd hplt hpcd]

theorem parseItems_base (fuel : Nat) (acc : List (Str × Str × Str)) :
    parseItems (fuel + 1) TAILB acc = some acc.reverse := by
  have h1 : expectLit L0 TAILB = none := by decide
  have h2 : expectLit TAILB TAILB = some [] := by decide
  simp only [parseItems, h1, h2, eq_self_iff_true, if_true]

theorem parseItems_frags (clock : Nat → Str) (hclock : ∀ k, pdOk (clock k) = true) :
    ∀ (ks : List (List (Str × Json))), (∀ kvs ∈ ks, goodRec kvs = true) →
    ∀ k fuel acc, ks.length < fuel →
      parseItems fuel (fragsOf clock ks k ++ TAILB) acc
        = some (acc.reverse ++ ks.map recTriple) := by
  intro ks
  induction ks with
  | nil =>
    intro _ k fuel acc hf
    cases fuel with
    | zero => omega
    | succ f =>
      rw [show fragsOf clock [] k ++ TAILB = TAILB from by simp [fragsOf]]
      rw [parseItems_base]
      simp
  | cons kvs rest ih =>
    intro hgood k fuel acc hf
    cases fuel with
    | zero => omega
    | succ f =>
      have hg : goodRec kvs = true := hgood kvs (List.mem_cons_self _ _)
      obtain ⟨hgt, hgl, hgd, hgenc⟩ : cdFree (pyStr (recTitle kvs)) = true ∧
          linkOk (pyStr (recLink kvs)) = true ∧ cdFree (pyStr (recDesc kvs)) = true ∧
          (!pyTruthy (recThumb kvs) || attrOk (pyStr (recThumb kvs))) = true := by
        simpa [goodRec, Bool.and_eq_true, and_assoc] using hg
      have henc : recEnc kvs = [] ∨ ∃ w, recEnc kvs = encFrag w ∧ attrOk w = true := by
        by_cases htr : pyTruthy (recThumb kvs) = true
        · right
          refine ⟨pyStr (recThumb kvs), by simp [recEnc, htr], ?_⟩
          rw [htr] at hgenc
          simpa using hgenc
        · left
          simp [recEnc, htr]
      have hfr : fragsOf clock (kvs :: rest) k ++ TAILB
          = itemFrag (pyStr (recTitle kvs)) (pyStr (recLink kvs)) (pyStr (recDesc kvs))
              (recEnc kvs) (clock k) ++ (fragsOf clock rest (k + 1) ++ TAILB) := by
        simp [fragsOf, recFrag, List.append_assoc]
      have hflt : rest.length < f := by
        have := hf
        simp only [List.length_cons] at this
        omega
      rw [hfr, parseItems_step f _ _ _ _ _ _ acc hgt hgl hgd (hclock k) henc]
      rw [ih (fun kv hkv => hgood kv (List.mem_cons_of_mem _ hkv)) (k + 1) f _ hflt]
      simp [List.reverse_cons, List.append_assoc, recTriple]

theorem keptLen_le_frags (clock : Nat → Str) (ks : List (List (Str × Json))) :
    ∀ k, ks.length ≤ (fragsOf clock ks k).length := by
  induction ks with
  | nil => simp [fragsOf]
  | cons kvs rest ih =>
    intro k
    have h1 := ih (k + 1)
    have hrec : 1 ≤ (recFrag kvs (clock k)).length := by
      rw [recFrag, itemFrag]
      simp only [List.length_append]
      have hL0 : 0 < L0.length := by decide
      omega
    simp only [fragsOf, List.length_append, List.length_cons]
    omega

/-- Claim C3 (amended): for input records that are objects whose emitted
title and description do not contain `]]>`, whose link contains no `<`, `&`
or `]]>`, and whose thumbnail (when emitted) contains no `<`, `&` or `\"`,
the generated document is accepted by the conformant reader — well-formed
for the emitted grammar, with the XML 1.0 / UTF-8 prologue — and parsing it
yields exactly the (title, link, description) triples of the KEPT records
(those with a truthy headline or url), in input order.  Records with both
fields falsy are dropped, so the original claim's "same set of triples as
the input records" holds only for the kept ones, and a title containing
`]]>` makes the document ill-formed (see the counterexample). -/
theorem claim_C3 (clock : Nat → Str) (xs : List Json)
    (hobj : xs.all Json.isObj = true)
    (hgood : (keptOf xs).all goodRec = true)
    (hclock : ∀ k, pdOk (clock k) = true) :
    convert_to_rss clock (.arr xs) = .ok (fragsOf clock (keptOf xs) 0) ∧
    extractTriples (build_rss (fragsOf clock (keptOf xs) 0)) = some (triplesOf xs) := by
  refine ⟨convert_spec clock xs (by simpa [List.all_eq_true] using hobj), ?_⟩
  have hgood2 : ∀ kvs ∈ keptOf xs, goodRec kvs = true :=
    fun kvs hk => List.all_eq_true.mp hgood kvs hk
  simp only [extractTriples, build_rss, List.append_assoc, expectLit_append]
  have hf : (keptOf xs).length
      < (PREAMBLE ++ (fragsOf clock (keptOf xs) 0 ++ TAILB)).length + 1 := by
    have h1 := keptLen_le_frags clock (keptOf xs) 0
    simp only [List.length_append]
    omega
  rw [parseItems_frags clock hclock (keptOf xs) hgood2 0 _ [] hf]
  simp [triplesOf]

theorem claim_C3_witness :
    convert_to_rss clock0 (Json.arr [Json.obj [(S "headline", Json.str (S "A <&B")),
        (S "url", Json.str (S "http://x/1"))]])
      = .ok (fragsOf clock0 (keptOf [Json.obj [(S "headline", Json.str (S "A <&B")),
          (S "url", Json.str (S "http://x/1"))]]) 0) ∧
    extractTriples (build_rss (fragsOf clock0 (keptOf [Json.obj [(S "headline", Json.str (S "A <&B")),
        (S "url", Json.str (S "http://x/1"))]]) 0))
      = some (triplesOf [Json.obj [(S "headline", Json.str (S "A <&B")),
          (S "url", Json.str (S "http://x/1"))]]) :=
  claim_C3 clock0 _ rfl rfl (fun _ => rfl)

/-- Claim C3 counterexample: on the records
`[{"headline":"a]]>b","url":"u"}, {"headline":"","url":""}]` the pipeline
succeeds, but the emitted document closes the title's CDATA section at the
first `]]>` of the title, leaving a stray `]]>` in character data: the
conformant reader rejects the document (`none`), where the claim demands a
well-formed document whose parse returns the records' triples.  The empty
record is also dropped, contradicting "the same set of triples as the input
records" independently. -/
theorem claim_C3_cex :
    isOkConv (convert_to_rss clock0 (Json.arr
      [Json.obj [(S "headline", Json.str (S "a]]>b")), (S "url", Json.str (S "u"))],
       Json.obj [(S "headline", Json.str []), (S "url", Json.str [])]])) = true ∧
    extractTriples (build_rss (exceptStr (convert_to_rss clock0 (Json.arr
      [Json.obj [(S "headline", Json.str (S "a]]>b")), (S "url", Json.str (S "u"))],
       Json.obj [(S "headline", Json.str []), (S "url", Json.str [])]])))) = none :=
  ⟨rfl, rfl⟩
